import Mathlib

/-!
Verification of `static/js/custom.js` from the digital college attendance
management system.  The script's pure helpers (attendance math, attendance
colour coding, cookie parsing) are embedded as Lean functions over exact
rationals and Lean strings; the DOM-mutating helpers (row filters, loading
overlay) are embedded as functions on explicit list-of-node states.

Modelling conventions:
* JS numbers holding class counts are modelled as `ℕ`; percentages as `ℚ`.
* `Number.prototype.toFixed(2)` is modelled as rounding to the nearest
  multiple of `1/100` with ties away from zero towards the larger integer,
  matching the ECMAScript "pick the larger n" tie rule; the resulting
  string `"75.00"` is read as the rational `75`.
* In `calculateRequiredClasses` the loop guard divides by `futureTotal`.
  When `futureTotal = 0` IEEE-754 gives `NaN` (for `0/0`) or `+∞` (for
  `a/0`, `a > 0`), and in both cases `NaN < target` and `+∞ < target` are
  false, so the guard fails.  The embedding encodes this by conjoining
  `futureTotal ≠ 0` to the guard (Lean's `x / 0 = 0` convention would
  otherwise diverge from the source).
* `document.cookie` is a plain string; `decodeURIComponent` is a
  host-provided builtin and is passed in as an abstract `String → String`.
* The DOM body is a list of nodes; `row.style.display` is a string field.
-/

namespace AttendanceSystem

/-- `calculateAttendance(totalClasses, attendedClasses)` from
`custom.js:232-235`: returns `0` when `totalClasses === 0`, otherwise
`((attendedClasses / totalClasses) * 100).toFixed(2)`, modelled as the
exact quotient rounded to two decimal places. -/
def calculateAttendance (totalClasses attendedClasses : ℕ) : ℚ :=
  if totalClasses = 0 then 0
  else (round ((attendedClasses : ℚ) / (totalClasses : ℚ) * 100 * 100) : ℤ) / 100

/-- One step of the `while` loop of `calculateRequiredClasses`
(`custom.js:242-246`), with explicit fuel for structural recursion.  The
guard `(futureAttended / futureTotal * 100) < targetPercentage && required < 100`
is embedded with the extra conjunct `futureTotal ≠ 0`: with a zero
denominator the JS comparison is against `NaN` or `+∞` and is false. -/
def reqGo (targetPercentage : ℚ) : ℕ → ℕ → ℕ → ℕ → ℕ
  | 0, _, _, required => required
  | fuel + 1, futureTotal, futureAttended, required =>
    if (¬ futureTotal = 0 ∧
          (futureAttended : ℚ) / (futureTotal : ℚ) * 100 < targetPercentage) ∧
        required < 100 then
      reqGo targetPercentage fuel (futureTotal + 1) (futureAttended + 1) (required + 1)
    else required

/-- `calculateRequiredClasses(currentTotal, currentAttended, targetPercentage)`
from `custom.js:237-249`: starts `required = 0`, `futureTotal = currentTotal`,
`futureAttended = currentAttended` and runs the guarded loop.  The guard
`required < 100` bounds the loop to 100 iterations, so fuel `101` is never
exhausted (proved below as fuel irrelevance). -/
def calculateRequiredClasses (currentTotal currentAttended : ℕ)
    (targetPercentage : ℚ) : ℕ :=
  reqGo targetPercentage 101 currentTotal currentAttended 0

/-- The target is reached after `k` additional attended classes:
`(currentAttended + k) / (currentTotal + k) * 100 >= targetPercentage`,
i.e. the loop guard's numeric comparison fails at step `k`. -/
def reaches (currentTotal currentAttended : ℕ) (targetPercentage : ℚ)
    (k : ℕ) : Prop :=
  ¬ ((currentAttended : ℚ) + k) / ((currentTotal : ℚ) + k) * 100 < targetPercentage

instance (t a : ℕ) (p : ℚ) (k : ℕ) : Decidable (reaches t a p k) := by
  unfold reaches; infer_instance

/-- `getAttendanceColor(percentage)` from `custom.js:370-374`. -/
def getAttendanceColor (percentage : ℚ) : String :=
  if percentage ≥ 75 then "success"
  else if percentage ≥ 65 then "warning"
  else "danger"

/-- A table row as seen by the filter functions: the three `data-*`
attributes read by `filterByDay` / `filterByStatus` / `filterBySemester`
(`none` when the attribute is absent, so the row is not in the
corresponding `querySelectorAll` result), the `style.display` value the
filters write, and the remaining attributes, untouched by the script. -/
structure Row where
  dataDay : Option String
  dataStatus : Option String
  dataSemester : Option String
  display : String
  attrs : List (String × String)
  deriving Repr, DecidableEq

/-- `filterByDay(day)` from `custom.js:252-262`: for every `[data-day]`
element, sets `style.display` to `''` when `day === 'all'` or the row's
`data-day` equals `day`, else to `'none'`; rows without the attribute are
not selected and are untouched. -/
def filterByDay (day : String) (rows : List Row) : List Row :=
  rows.map fun row =>
    match row.dataDay with
    | some d => { row with display := if day = "all" ∨ d = day then "" else "none" }
    | none => row

/-- `filterByStatus(status)` from `custom.js:264-274`. -/
def filterByStatus (status : String) (rows : List Row) : List Row :=
  rows.map fun row =>
    match row.dataStatus with
    | some s => { row with display := if status = "all" ∨ s = status then "" else "none" }
    | none => row

/-- `filterBySemester(semester)` from `custom.js:276-286`. -/
def filterBySemester (semester : String) (rows : List Row) : List Row :=
  rows.map fun row =>
    match row.dataSemester with
    | some s => { row with display := if semester = "all" ∨ s = semester then "" else "none" }
    | none => row

/-- The loop of `getCookie` (`custom.js:293-299`): scans the split cookie
entries in order; the first entry whose `trim()` satisfies
`cookie.substring(0, name.length + 1) === name + '='` yields
`decodeURIComponent(cookie.substring(name.length + 1))` and the loop
breaks; otherwise the scan continues. -/
def getCookieLoop (decode : String → String) (name : String) :
    List String → Option String
  | [] => none
  | c :: rest =>
    let cookie := c.trim
    if cookie.take (name.length + 1) = name ++ "=" then
      some (decode (cookie.drop (name.length + 1)))
    else getCookieLoop decode name rest

/-- `getCookie(name)` from `custom.js:289-302`: when `document.cookie` is
non-empty, splits it on `';'` and scans for the first matching entry;
returns `null` (here `none`) when nothing matches or the cookie string is
empty.  `decodeURIComponent` is the abstract `decode` parameter. -/
def getCookie (decode : String → String) (documentCookie name : String) :
    Option String :=
  if documentCookie ≠ "" then
    getCookieLoop decode name (documentCookie.splitOn ";")
  else none

/-- A direct child of `document.body` as touched by the loading-overlay
helpers: its `id`, `className` and `innerHTML`. -/
structure DomNode where
  id : String
  className : String
  innerHTML : String
  deriving Repr, DecidableEq

/-- The overlay node built by `showLoading` (`custom.js:327-330`). -/
def overlayNode : DomNode :=
  { id := "loadingOverlay"
    className := "spinner-overlay"
    innerHTML := "<div class=\"spinner\"></div>" }

/-- `showLoading()` from `custom.js:326-332`: unconditionally appends a
fresh overlay node to `document.body`'s child list. -/
def showLoading (body : List DomNode) : List DomNode :=
  body ++ [overlayNode]

/-- `document.getElementById(i)` followed by `.remove()`, guarded by the
null check: removes the first node whose `id` matches, and leaves the list
unchanged when none does. -/
def removeFirstById (i : String) : List DomNode → List DomNode
  | [] => []
  | n :: rest => if n.id = i then rest else n :: removeFirstById i rest

/-- `hideLoading()` from `custom.js:334-337`: `getElementById('loadingOverlay')`
and, if found, `remove()`. -/
def hideLoading (body : List DomNode) : List DomNode :=
  removeFirstById "loadingOverlay" body

end AttendanceSystem

namespace AttendanceSystem

/-! ### Helper lemmas for the `calculateRequiredClasses` loop -/

/-- The loop counter never exceeds 100: `required` is returned as soon as
the guard `required < 100` fails. -/
lemma reqGo_le_100 (p : ℚ) :
    ∀ fuel futureTotal futureAttended required, required ≤ 100 →
      reqGo p fuel futureTotal futureAttended required ≤ 100 := by
  intro fuel
  induction fuel with
  | zero => intro tot att r hr; simpa [reqGo] using hr
  | succ fuel ih =>
    intro tot att r hr
    simp only [reqGo]
    split_ifs with hc
    · exact ih _ _ _ (by omega)
    · exact hr

/-- Any fuel strictly above the remaining iteration budget `100 - required`
gives the same result: the loop really stops within the budget. -/
lemma reqGo_fuel_irrel (p : ℚ) :
    ∀ fuel₁ fuel₂ futureTotal futureAttended required,
      100 - required < fuel₁ → 100 - required < fuel₂ →
      reqGo p fuel₁ futureTotal futureAttended required =
        reqGo p fuel₂ futureTotal futureAttended required := by
  intro fuel₁
  induction fuel₁ with
  | zero => intro f₂ tot att r h1 h2; omega
  | succ f ih =>
    intro f₂ tot att r h1 h2
    cases f₂ with
    | zero => omega
    | succ g =>
      simp only [reqGo]
      split_ifs with hc
      · obtain ⟨-, hr⟩ := hc
        exact ih g _ _ _ (by omega) (by omega)
      · rfl

/-- C3: for every input triple, `calculateRequiredClasses` terminates with
a value that is never greater than 100, and the `while` loop runs at most
100 iterations: any fuel beyond 101 gives the same result as fuel 101. -/
theorem calculateRequiredClasses_bounded (currentTotal currentAttended : ℕ)
    (targetPercentage : ℚ) :
    calculateRequiredClasses currentTotal currentAttended targetPercentage ≤ 100 ∧
    ∀ extra : ℕ,
      reqGo targetPercentage (101 + extra) currentTotal currentAttended 0 =
        calculateRequiredClasses currentTotal currentAttended targetPercentage := by
  unfold calculateRequiredClasses
  constructor
  · exact reqGo_le_100 _ _ _ _ _ (by omega)
  · intro extra
    exact reqGo_fuel_irrel _ _ _ _ _ _ (by omega) (by omega)

/-- C10: with `currentTotal = 0` the loop guard divides by zero; under the
source's IEEE-754 arithmetic the quotient is `NaN` (for `0/0`) or `+∞`,
both of which compare false against `targetPercentage`, so the loop body
never runs and the function returns `0`. -/
theorem calculateRequiredClasses_zero_total (currentAttended : ℕ)
    (targetPercentage : ℚ) :
    calculateRequiredClasses 0 currentAttended targetPercentage = 0 := by
  simp [calculateRequiredClasses, reqGo]

/-- C6: `getAttendanceColor` returns `"success"` iff the percentage is at
least 75, `"warning"` iff it is in `[65, 75)`, `"danger"` iff it is below
65; in particular at 80, 70 and 50. -/
theorem getAttendanceColor_spec (percentage : ℚ) :
    (getAttendanceColor percentage = "success" ↔ 75 ≤ percentage) ∧
    (getAttendanceColor percentage = "warning" ↔ 65 ≤ percentage ∧ percentage < 75) ∧
    (getAttendanceColor percentage = "danger" ↔ percentage < 65) ∧
    getAttendanceColor 80 = "success" ∧
    getAttendanceColor 70 = "warning" ∧
    getAttendanceColor 50 = "danger" := by
  refine ⟨?_, ?_, ?_, by norm_num [getAttendanceColor], by norm_num [getAttendanceColor],
    by norm_num [getAttendanceColor]⟩
  · unfold getAttendanceColor
    split_ifs with h1 h2
    · simpa using h1
    · simpa using h1
    · simpa using h1
  · unfold getAttendanceColor
    split_ifs with h1 h2
    · simp
      intro _
      linarith
    · simp
      exact ⟨h2, by linarith⟩
    · simp
      intro h
      linarith
  · unfold getAttendanceColor
    split_ifs with h1 h2
    · simp
      linarith
    · simp
      linarith
    · simp
      linarith

/-- C8: `showLoading` unconditionally appends a fresh overlay node with id
`loadingOverlay`, so two successive calls leave two more nodes with that id
than before (in particular two, starting from a body without one). -/
theorem showLoading_twice (body : List DomNode) :
    (showLoading (showLoading body)).countP (fun n => n.id == "loadingOverlay") =
      body.countP (fun n => n.id == "loadingOverlay") + 2 := by
  simp [showLoading, List.countP_append, overlayNode, List.countP_cons]

end AttendanceSystem

namespace AttendanceSystem

/-! ### Loading overlay removal -/

/-- `removeFirstById` is the identity when no node carries the id. -/
lemma removeFirstById_of_not_mem (i : String) :
    ∀ body : List DomNode, (∀ n ∈ body, n.id ≠ i) → removeFirstById i body = body := by
  intro body
  induction body with
  | nil => intro _; rfl
  | cons n rest ih =>
    intro h
    simp only [removeFirstById]
    rw [if_neg (h n (List.mem_cons_self n rest))]
    rw [ih fun m hm => h m (List.mem_cons_of_mem n hm)]

/-- `removeFirstById` removes exactly the first node carrying the id. -/
lemma removeFirstById_append (i : String) (ov : DomNode) (post : List DomNode)
    (hov : ov.id = i) :
    ∀ pre : List DomNode, (∀ n ∈ pre, n.id ≠ i) →
      removeFirstById i (pre ++ ov :: post) = pre ++ post := by
  intro pre
  induction pre with
  | nil => intro _; simp [removeFirstById, hov]
  | cons n rest ih =>
    intro h
    simp only [List.cons_append, removeFirstById]
    rw [if_neg (h n (List.mem_cons_self n rest))]
    show n :: removeFirstById i (rest ++ ov :: post) = n :: (rest ++ post)
    rw [ih fun m hm => h m (List.mem_cons_of_mem n hm)]

/-- C9: `hideLoading` on a body with no `loadingOverlay` node is a no-op
(removing an absent node raises no error and changes nothing); with a
`loadingOverlay` node present and unique, it removes exactly that node. -/
theorem hideLoading_spec (body : List DomNode) :
    ((∀ n ∈ body, n.id ≠ "loadingOverlay") → hideLoading body = body) ∧
    (∀ pre post : List DomNode, ∀ ov : DomNode,
      body = pre ++ ov :: post → ov.id = "loadingOverlay" →
      (∀ n ∈ pre, n.id ≠ "loadingOverlay") →
      (∀ n ∈ post, n.id ≠ "loadingOverlay") →
      hideLoading body = pre ++ post) := by
  constructor
  · intro h
    exact removeFirstById_of_not_mem _ body h
  · intro pre post ov hbody hov hpre _
    rw [hbody]
    exact removeFirstById_append _ ov post hov pre hpre

/-- Sample states for instantiating the overlay theorems. -/
def plainNode : DomNode :=
  { id := "mainTable", className := "table", innerHTML := "" }

/-- Witness for C9 at a concrete body: a single non-overlay node is left
untouched, and a body `[plainNode, overlayNode]` loses exactly the
overlay. -/
theorem hideLoading_spec_witness :
    hideLoading [plainNode] = [plainNode] ∧
    hideLoading [plainNode, overlayNode] = [plainNode] := by
  constructor
  · exact (hideLoading_spec [plainNode]).1 (by decide)
  · exact (hideLoading_spec [plainNode, overlayNode]).2 [plainNode] [] overlayNode
      (by decide) (by decide) (by decide) (by decide)

/-! ### Filter frame conditions -/

/-- Everything the filters may not change about a row: the three `data-*`
attributes and the remaining attributes — all fields except `display`. -/
def rowFrame (r : Row) :
    Option String × Option String × Option String × List (String × String) :=
  (r.dataDay, r.dataStatus, r.dataSemester, r.attrs)

/-- C5: each filter function only toggles `style.display`: the number of
rows, their order underneath `map`, and every field other than `display`
are preserved (stated as preservation of the per-row frame projection). -/
theorem filters_frame (rows : List Row) (v : String) :
    (filterByDay v rows).map rowFrame = rows.map rowFrame ∧
    (filterByStatus v rows).map rowFrame = rows.map rowFrame ∧
    (filterBySemester v rows).map rowFrame = rows.map rowFrame := by
  refine ⟨?_, ?_, ?_⟩ <;>
  · simp only [filterByDay, filterByStatus, filterBySemester, List.map_map]
    refine List.map_congr_left fun r _ => ?_
    rcases r with ⟨d, s, sem, disp, attrs⟩
    simp only [Function.comp_apply, rowFrame]
    split <;> rfl

end AttendanceSystem

namespace AttendanceSystem

/-- C4: `filterByStatus('all')` makes every `[data-status]` row visible
(`display = ''`); for any other status `s`, exactly the rows whose
`data-status` equals `s` become visible and all other `[data-status]` rows
are hidden (`display = 'none'`) — the row's `data-day` and `data-semester`
values play no part. -/
theorem filterByStatus_spec (rows : List Row) (status : String) (i : ℕ)
    (row : Row) (hrow : rows[i]? = some row) (hattr : row.dataStatus.isSome) :
    ∃ row', (filterByStatus status rows)[i]? = some row' ∧
      (row'.display = "" ↔ status = "all" ∨ row.dataStatus = some status) ∧
      (row'.display = "none" ↔ ¬ (status = "all" ∨ row.dataStatus = some status)) := by
  obtain ⟨s, hs⟩ := Option.isSome_iff_exists.mp hattr
  refine ⟨{ row with display := if status = "all" ∨ s = status then "" else "none" },
    ?_, ?_, ?_⟩
  · simp [filterByStatus, hrow, hs]
  · simp only [hs, Option.some_inj]
    split_ifs with h <;> simp [h]
  · simp only [hs, Option.some_inj]
    split_ifs with h <;> simp [h]

/-- Sample rows for instantiating the filter theorem. -/
def absentRow : Row :=
  { dataDay := some "monday", dataStatus := some "absent", dataSemester := some "3"
    display := "", attrs := [] }

/-- Sample present-status row. -/
def presentRow : Row :=
  { dataDay := some "monday", dataStatus := some "present", dataSemester := some "3"
    display := "", attrs := [] }

/-- Witness for C4 on a concrete two-row table: `filterByStatus('absent')`
leaves the absent row visible and hides the present row. -/
theorem filterByStatus_spec_witness :
    ([absentRow, presentRow][0]? = some absentRow ∧ absentRow.dataStatus.isSome ∧
      ∃ row', (filterByStatus "absent" [absentRow, presentRow])[0]? = some row' ∧
        (row'.display = "" ↔ "absent" = "all" ∨ absentRow.dataStatus = some "absent") ∧
        (row'.display = "none" ↔
          ¬ ("absent" = "all" ∨ absentRow.dataStatus = some "absent"))) ∧
    ([absentRow, presentRow][1]? = some presentRow ∧ presentRow.dataStatus.isSome ∧
      ∃ row', (filterByStatus "absent" [absentRow, presentRow])[1]? = some row' ∧
        (row'.display = "" ↔ "absent" = "all" ∨ presentRow.dataStatus = some "absent") ∧
        (row'.display = "none" ↔
          ¬ ("absent" = "all" ∨ presentRow.dataStatus = some "absent"))) := by
  constructor
  · exact ⟨rfl, rfl, filterByStatus_spec [absentRow, presentRow] "absent" 0 absentRow rfl rfl⟩
  · exact ⟨rfl, rfl, filterByStatus_spec [absentRow, presentRow] "absent" 1 presentRow rfl rfl⟩

end AttendanceSystem

namespace AttendanceSystem

/-! ### Attendance percentage bounds -/

/-- Core bounds for `calculateAttendance` on a non-empty class total: the
rounded percentage stays in `[0, 100]` and is within half a unit of the
last kept decimal place of the exact percentage. -/
lemma calculateAttendance_bounds (t a : ℕ) (ht : t ≠ 0) (h : a ≤ t) :
    0 ≤ calculateAttendance t a ∧ calculateAttendance t a ≤ 100 ∧
    |calculateAttendance t a - (a : ℚ) / (t : ℚ) * 100| ≤ 1 / 200 := by
  have htpos : (0 : ℚ) < (t : ℚ) := by exact_mod_cast Nat.pos_of_ne_zero ht
  have hc : (a : ℚ) ≤ (t : ℚ) := by exact_mod_cast h
  have hq0 : 0 ≤ (a : ℚ) / (t : ℚ) * 100 := by positivity
  have hq100 : (a : ℚ) / (t : ℚ) * 100 ≤ 100 := by
    rw [div_mul_eq_mul_div, div_le_iff₀ htpos]
    nlinarith
  have hval : calculateAttendance t a =
      ((round ((a : ℚ) / (t : ℚ) * 100 * 100) : ℤ) : ℚ) / 100 := by
    simp [calculateAttendance, ht]
  have hr0 : (0 : ℤ) ≤ round ((a : ℚ) / (t : ℚ) * 100 * 100) := by
    rw [round_eq]
    exact Int.le_floor.mpr (by push_cast; linarith)
  have hr1 : round ((a : ℚ) / (t : ℚ) * 100 * 100) ≤ 10000 := by
    rw [round_eq]
    exact Int.floor_le_iff.mpr (by push_cast; linarith)
  have hr0q : (0 : ℚ) ≤ ((round ((a : ℚ) / (t : ℚ) * 100 * 100) : ℤ) : ℚ) := by
    exact_mod_cast hr0
  have hr1q : ((round ((a : ℚ) / (t : ℚ) * 100 * 100) : ℤ) : ℚ) ≤ 10000 := by
    exact_mod_cast hr1
  have habs : |((round ((a : ℚ) / (t : ℚ) * 100 * 100) : ℤ) : ℚ) -
      (a : ℚ) / (t : ℚ) * 100 * 100| ≤ 1 / 2 := by
    have h2 := abs_sub_round ((a : ℚ) / (t : ℚ) * 100 * 100)
    rw [abs_sub_comm] at h2
    exact h2
  refine ⟨?_, ?_, ?_⟩
  · rw [hval]
    exact div_nonneg hr0q (by norm_num)
  · rw [hval, div_le_iff₀ (by norm_num : (0 : ℚ) < 100)]
    linarith
  · rw [hval,
      show ((round ((a : ℚ) / (t : ℚ) * 100 * 100) : ℤ) : ℚ) / 100 -
          (a : ℚ) / (t : ℚ) * 100 =
        (((round ((a : ℚ) / (t : ℚ) * 100 * 100) : ℤ) : ℚ) -
          (a : ℚ) / (t : ℚ) * 100 * 100) / 100 by ring,
      abs_div, show |(100 : ℚ)| = 100 by norm_num]
    linarith

/-- C2: `calculateAttendance` returns `0` for a zero total; for
`attended ≤ total` the result lies in `[0, 100]`; `calculateAttendance 20 15`
is `75` (the source string `"75.00"`); and for a non-zero total the result
is the exact percentage rounded to two decimal places (within `1/200`). -/
theorem calculateAttendance_spec (totalClasses attendedClasses : ℕ)
    (h : attendedClasses ≤ totalClasses) :
    0 ≤ calculateAttendance totalClasses attendedClasses ∧
    calculateAttendance totalClasses attendedClasses ≤ 100 ∧
    calculateAttendance 0 attendedClasses = 0 ∧
    calculateAttendance 20 15 = 75 ∧
    (totalClasses ≠ 0 →
      |calculateAttendance totalClasses attendedClasses -
        (attendedClasses : ℚ) / (totalClasses : ℚ) * 100| ≤ 1 / 200) := by
  have hzero : calculateAttendance 0 attendedClasses = 0 := by
    simp [calculateAttendance]
  have hconc : calculateAttendance 20 15 = 75 := by
    norm_num [calculateAttendance, round_eq]
  by_cases ht : totalClasses = 0
  · subst ht
    refine ⟨?_, ?_, hzero, hconc, fun h0 => absurd rfl h0⟩ <;> rw [hzero] <;> norm_num
  · obtain ⟨h1, h2, h3⟩ := calculateAttendance_bounds totalClasses attendedClasses ht h
    exact ⟨h1, h2, hzero, hconc, fun _ => h3⟩

/-- Witness for C2 at `total = 20`, `attended = 15`. -/
theorem calculateAttendance_spec_witness :
    (15 : ℕ) ≤ 20 ∧ calculateAttendance 20 15 = 75 :=
  ⟨by norm_num, (calculateAttendance_spec 20 15 (by norm_num)).2.2.2.1⟩

/-! ### Minimality of `calculateRequiredClasses` -/

/-- The loop guard's numeric comparison, stated on the `ℕ`-sum arguments
actually passed to `reqGo`, fails exactly when the target is reached. -/
lemma reqGo_guard_cast (t a r : ℕ) (p : ℚ) :
    (((a + r : ℕ) : ℚ) / ((t + r : ℕ) : ℚ) * 100 < p) ↔ ¬ reaches t a p r := by
  unfold reaches
  push_cast
  exact not_not.symm

/-- Loop invariant for `reqGo` on the reachable states
`(t + r, a + r, r)`: the result lies in `[r, 100]`, no step between `r`
and the result reaches the target, and the result either reaches the
target or is the cap `100`. -/
lemma reqGo_invariant (t a : ℕ) (p : ℚ) (ht : 0 < t) :
    ∀ fuel r, r ≤ 100 → 100 - r < fuel →
      r ≤ reqGo p fuel (t + r) (a + r) r ∧
      reqGo p fuel (t + r) (a + r) r ≤ 100 ∧
      (∀ j, r ≤ j → j < reqGo p fuel (t + r) (a + r) r → ¬ reaches t a p j) ∧
      (reaches t a p (reqGo p fuel (t + r) (a + r) r) ∨
        reqGo p fuel (t + r) (a + r) r = 100) := by
  intro fuel
  induction fuel with
  | zero => intro r h1 h2; omega
  | succ fuel ih =>
    intro r hr hfuel
    simp only [reqGo]
    split_ifs with hc
    · obtain ⟨⟨-, hlt⟩, hr100⟩ := hc
      have hnr : ¬ reaches t a p r := (reqGo_guard_cast t a r p).mp hlt
      rw [Nat.add_assoc t r 1, Nat.add_assoc a r 1]
      obtain ⟨ih1, ih2, ih3, ih4⟩ := ih (r + 1) (by omega) (by omega)
      refine ⟨by omega, ih2, ?_, ih4⟩
      intro j hj1 hj2
      rcases Nat.eq_or_lt_of_le hj1 with rfl | hj
      · exact hnr
      · exact ih3 j hj hj2
    · refine ⟨le_refl r, hr, fun j hj1 hj2 => absurd hj1 (by omega), ?_⟩
      by_cases hr100 : r < 100
      · left
        have hnlt : ¬ (((a + r : ℕ) : ℚ) / ((t + r : ℕ) : ℚ) * 100 < p) := by
          intro hlt
          exact hc ⟨⟨by omega, hlt⟩, hr100⟩
        by_contra hnre
        exact hnlt ((reqGo_guard_cast t a r p).mpr hnre)
      · right; omega

/-- C1 (amended): for a positive current total and `attended ≤ total`,
`calculateRequiredClasses` returns the least `k` with
`(attended + k) / (total + k) * 100 ≥ target` whenever some `k < 100`
reaches the target, and returns `100` when no `k < 100` does; the spec's
concrete value is corrected from `2` to `4`:
`calculateRequiredClasses 20 14 75 = 4`. -/
theorem calculateRequiredClasses_spec (currentTotal currentAttended : ℕ)
    (targetPercentage : ℚ) (ht : 0 < currentTotal)
    (ha : currentAttended ≤ currentTotal) :
    ((∃ k, k < 100 ∧ reaches currentTotal currentAttended targetPercentage k) →
      reaches currentTotal currentAttended targetPercentage
          (calculateRequiredClasses currentTotal currentAttended targetPercentage) ∧
      ∀ j < calculateRequiredClasses currentTotal currentAttended targetPercentage,
        ¬ reaches currentTotal currentAttended targetPercentage j) ∧
    ((∀ k < 100, ¬ reaches currentTotal currentAttended targetPercentage k) →
      calculateRequiredClasses currentTotal currentAttended targetPercentage = 100) ∧
    calculateRequiredClasses 20 14 75 = 4 := by
  unfold calculateRequiredClasses
  obtain ⟨-, hle, hmin, hlast⟩ :=
    reqGo_invariant currentTotal currentAttended targetPercentage ht 101 0
      (by omega) (by omega)
  simp only [Nat.add_zero] at hle hmin hlast
  refine ⟨?_, ?_, by norm_num [reqGo]⟩
  · rintro ⟨k, hk100, hkre⟩
    rcases hlast with hre | h100
    · exact ⟨hre, fun j hj => hmin j (Nat.zero_le j) hj⟩
    · exact absurd hkre (hmin k (Nat.zero_le k) (by omega))
  · intro hnone
    rcases hlast with hre | h100
    · by_contra hne
      exact hnone _ (by omega) hre
    · exact h100

/-- Witness for C1's theorem at the concrete input `(20, 14, 75)`. -/
theorem calculateRequiredClasses_spec_witness :
    0 < 20 ∧ 14 ≤ 20 ∧ calculateRequiredClasses 20 14 75 = 4 :=
  ⟨by norm_num, by norm_num,
    (calculateRequiredClasses_spec 20 14 75 (by norm_num) (by norm_num)).2.2⟩

/-- Counterexample to C1 as stated: at `(20, 14, 75)` the function returns
`4`, not the claimed `2` — indeed after 2 extra classes the percentage is
`16/22·100 ≈ 72.7 < 75`, so `k = 2` does not reach the target. -/
theorem calculateRequiredClasses_not_two :
    calculateRequiredClasses 20 14 75 = 4 ∧
    calculateRequiredClasses 20 14 75 ≠ 2 ∧
    ¬ reaches 20 14 75 2 := by
  have h4 : calculateRequiredClasses 20 14 75 = 4 := by
    norm_num [calculateRequiredClasses, reqGo]
  refine ⟨h4, by rw [h4]; norm_num, ?_⟩
  norm_num [reaches]

end AttendanceSystem

namespace AttendanceSystem

/-! ### Cookie parsing -/

/-- The match test of the `getCookie` loop on one split entry: the trimmed
entry's first `name.length + 1` characters equal `name + '='`
(the source's `cookie.substring(0, name.length + 1) === name + '='`). -/
def cookieMatches (name entry : String) : Prop :=
  entry.trim.take (name.length + 1) = name ++ "="

instance (name entry : String) : Decidable (cookieMatches name entry) := by
  unfold cookieMatches; infer_instance

/-- `name + '='` is one character longer than `name`. -/
lemma cookieKey_length (name : String) : (name ++ "=").length = name.length + 1 := by
  rw [String.length_append]
  rfl

/-- The match test says exactly that the trimmed entry starts with
`name + '='`. -/
lemma cookieMatches_iff (name e : String) :
    cookieMatches name e ↔ (name ++ "=").data <+: e.trim.data := by
  unfold cookieMatches
  rw [String.ext_iff, String.data_take, List.prefix_iff_eq_take]
  have h : (name ++ "=").data.length = name.length + 1 := cookieKey_length name
  rw [h]
  exact eq_comm

/-- The scan returns `none` exactly when no entry matches. -/
lemma getCookieLoop_eq_none_iff (decode : String → String) (name : String) :
    ∀ l : List String, getCookieLoop decode name l = none ↔
      ∀ e ∈ l, ¬ cookieMatches name e := by
  intro l
  induction l with
  | nil => simp [getCookieLoop]
  | cons c rest ih =>
    simp only [getCookieLoop, List.mem_cons]
    split_ifs with h
    · constructor
      · intro hh
        exact absurd hh (by simp)
      · intro hall
        exact absurd h (hall c (Or.inl rfl))
    · rw [ih]
      constructor
      · intro hall e he
        rcases he with rfl | he
        · exact h
        · exact hall e he
      · intro hall e he
        exact hall e (Or.inr he)

/-- The scan returns `some v` exactly when the list splits around a first
matching entry whose decoded remainder is `v`. -/
lemma getCookieLoop_eq_some_iff (decode : String → String) (name v : String) :
    ∀ l : List String, getCookieLoop decode name l = some v ↔
      ∃ pre entry post, l = pre ++ entry :: post ∧
        (∀ e ∈ pre, ¬ cookieMatches name e) ∧ cookieMatches name entry ∧
        v = decode (entry.trim.drop (name.length + 1)) := by
  intro l
  induction l with
  | nil =>
    constructor
    · intro hh
      simp [getCookieLoop] at hh
    · rintro ⟨pre, entry, post, habs, -⟩
      exact absurd habs.symm (by simp)
  | cons c rest ih =>
    by_cases h : cookieMatches name c
    · have hl : getCookieLoop decode name (c :: rest) =
          some (decode (c.trim.drop (name.length + 1))) := by
        simp only [getCookieLoop]
        exact if_pos h
      rw [hl]
      constructor
      · intro hh
        injection hh with hh
        exact ⟨[], c, rest, rfl, by simp, h, hh.symm⟩
      · rintro ⟨pre, entry, post, hsplit, hpre, hentry, hv⟩
        cases pre with
        | nil =>
          simp only [List.nil_append] at hsplit
          injection hsplit with h1 h2
          subst h1
          rw [hv]
        | cons p ps =>
          simp only [List.cons_append] at hsplit
          injection hsplit with h1 h2
          subst h1
          exact absurd h (hpre c (List.mem_cons_self c ps))
    · have hl : getCookieLoop decode name (c :: rest) =
          getCookieLoop decode name rest := by
        simp only [getCookieLoop]
        exact if_neg h
      rw [hl, ih]
      constructor
      · rintro ⟨pre, entry, post, hsplit, hpre, hentry, hv⟩
        refine ⟨c :: pre, entry, post, by rw [hsplit, List.cons_append], ?_, hentry, hv⟩
        intro e he
        rcases List.mem_cons.mp he with rfl | he
        · exact h
        · exact hpre e he
      · rintro ⟨pre, entry, post, hsplit, hpre, hentry, hv⟩
        cases pre with
        | nil =>
          simp only [List.nil_append] at hsplit
          injection hsplit with h1 h2
          subst h1
          exact absurd hentry h
        | cons p ps =>
          simp only [List.cons_append] at hsplit
          injection hsplit with h1 h2
          subst h1
          exact ⟨ps, entry, post, h2,
            fun e he => hpre e (List.mem_cons_of_mem c he), hentry, hv⟩

/-- C7: on a non-empty cookie string, `getCookie` returns `some v` exactly
when the semicolon-split list has a first entry whose trimmed form starts
with `name + '='` and whose decoded remainder is `v`, and returns `null`
exactly when no entry matches; on the empty cookie string it returns
`null`. -/
theorem getCookie_spec (decode : String → String) (documentCookie name : String) :
    (documentCookie ≠ "" →
      (∀ v, getCookie decode documentCookie name = some v ↔
        ∃ pre entry post, documentCookie.splitOn ";" = pre ++ entry :: post ∧
          (∀ e ∈ pre, ¬ cookieMatches name e) ∧ cookieMatches name entry ∧
          v = decode (entry.trim.drop (name.length + 1))) ∧
      (getCookie decode documentCookie name = none ↔
        ∀ e ∈ documentCookie.splitOn ";", ¬ cookieMatches name e)) ∧
    getCookie decode "" name = none := by
  constructor
  · intro hd
    have hopen : getCookie decode documentCookie name =
        getCookieLoop decode name (documentCookie.splitOn ";") := by
      unfold getCookie
      exact if_pos hd
    rw [hopen]
    exact ⟨fun v => getCookieLoop_eq_some_iff decode name v _,
      getCookieLoop_eq_none_iff decode name _⟩
  · rfl

/-- Witness for C7 on the concrete cookie string `"a=1"` with name
`csrftoken`, which contains no matching entry. -/
theorem getCookie_spec_witness :
    ("a=1" : String) ≠ "" ∧
    (getCookie id "a=1" "csrftoken" = none ↔
      ∀ e ∈ ("a=1" : String).splitOn ";", ¬ cookieMatches "csrftoken" e) :=
  ⟨by decide, ((getCookie_spec id "a=1" "csrftoken").1 (by decide)).2⟩

end AttendanceSystem
